import Mathlib

/-!
Verification of the rider GPS tracking pipeline specification for the
POS Rider repository (`New-Koding`).

The repository's visible JavaScript sources contain the authentication
forms and navigation shells (`Login.js`, `Register`, `RiderLayout.js`,
`AdminLayout.js`); the GPS pipeline itself (Sampler, Local Buffer, Sync
Uploader, Tracking Session Controller, Server Ingest/Query) is described
by the specification but its implementation files are not in the sampled
sources.  Definitions for those components are therefore modelled from
the specification text (each marked `Modelled from the spec:`), while
the form/navigation logic is embedded directly from the JavaScript.
-/

namespace GPS

/-- Modelled from the spec: a Fix is "a single raw observation: rider
identifier, latitude, longitude, accuracy radius (meters), speed
(optional), heading (optional), device timestamp, client-generated fix
identifier".  Latitude/longitude are carried as integers (fixed-point
micro-degrees); speed and heading are optional and irrelevant to the
claims, so they are omitted from the record. -/
structure Fix where
  riderId : Nat
  fixId : Nat
  lat : Int
  lon : Int
  accuracy : Nat
  deviceTs : Nat
  deriving Repr, DecidableEq

/-! ## Local Buffer (spec section 4.3)

The implementation of the Local Buffer is not among the sampled sources;
it is modelled from the spec: "An ordered, durable, append-only queue of
accepted Fixes per session ... `append(fix)` — idempotent on fix
identifier (duplicate append is a no-op); `peekBatch(maxSize)` — returns
up to N oldest unacknowledged fixes without removing them;
`acknowledge(batchId, fixIds)` — removes exactly the given fix
identifiers". -/

/-- Modelled from the spec: `append(fix)` is "idempotent on fix
identifier (duplicate append is a no-op)": the fix is enqueued at the
tail unless a fix with the same identifier is already buffered. -/
def bufAppend (b : List Fix) (f : Fix) : List Fix :=
  if b.any (fun g => g.fixId == f.fixId) then b else b ++ [f]

/-- Modelled from the spec: `peekBatch(maxSize)` "returns up to N oldest
unacknowledged fixes without removing them". -/
def peekBatch (b : List Fix) (maxSize : Nat) : List Fix :=
  b.take maxSize

/-- Modelled from the spec: `acknowledge(batchId, fixIds)` "removes
exactly the given fix identifiers"; the batch identifier itself plays no
role in which entries are removed. -/
def acknowledge (b : List Fix) (batchId : Nat) (fixIds : List Nat) : List Fix :=
  match b with
  | [] => []
  | f :: rest =>
    if f.fixId ∈ fixIds then acknowledge rest batchId fixIds
    else f :: acknowledge rest batchId fixIds

/-- An identifier is buffered when some entry carries it. -/
def hasId (b : List Fix) (i : Nat) : Bool := b.any (fun g => g.fixId == i)

theorem bufAppend_of_hasId (b : List Fix) (f : Fix) (h : hasId b f.fixId = true) :
    bufAppend b f = b := by
  unfold bufAppend
  simp only [hasId] at h
  simp [h]

theorem hasId_bufAppend_self (b : List Fix) (f : Fix) :
    hasId (bufAppend b f) f.fixId = true := by
  unfold bufAppend hasId
  by_cases h : b.any (fun g => g.fixId == f.fixId) = true
  · simp [h]
  · simp [h, List.any_append]

theorem count_bufAppend (b : List Fix) (f : Fix) :
    (bufAppend b f).countP (fun g => g.fixId == f.fixId) =
      if hasId b f.fixId then b.countP (fun g => g.fixId == f.fixId) else
        b.countP (fun g => g.fixId == f.fixId) + 1 := by
  unfold bufAppend hasId
  by_cases h : b.any (fun g => g.fixId == f.fixId) = true
  · simp [h]
  · simp [h, List.countP_append, List.countP_cons]

theorem count_eq_zero_of_not_hasId (b : List Fix) (i : Nat) :
    hasId b i = false → b.countP (fun g => g.fixId == i) = 0 := by
  induction b with
  | nil => intro _; simp
  | cons g rest ih =>
    intro h
    simp only [hasId, List.any_cons, Bool.or_eq_false_iff] at h
    have hr := ih (by simp [hasId, h.2])
    simp [List.countP_cons, h.1, hr]

/-- C2: Local Buffer `append` is idempotent on the fix identifier:
appending a fix whose identifier is already buffered leaves the buffer
unchanged, a repeated append of the same fix is a no-op, and starting
from a buffer without that identifier, any number of further appends of
the fix leaves exactly one entry carrying it. -/
theorem buffer_append_idempotent (b : List Fix) (f : Fix)
    (h : hasId b f.fixId = false) :
    bufAppend (bufAppend b f) f = bufAppend b f ∧
    (∀ b₂ : List Fix, hasId b₂ f.fixId = true → bufAppend b₂ f = b₂) ∧
    (bufAppend (bufAppend b f) f).countP (fun g => g.fixId == f.fixId) = 1 := by
  have hself := hasId_bufAppend_self b f
  refine ⟨bufAppend_of_hasId _ f hself, fun b₂ h₂ => bufAppend_of_hasId b₂ f h₂, ?_⟩
  rw [bufAppend_of_hasId _ f hself, count_bufAppend, if_neg (by simp [h]),
    count_eq_zero_of_not_hasId b f.fixId h]

/-- A concrete instantiation of C2's theorem: three appends of the same
fix to an initially empty buffer leave exactly one entry. -/
theorem buffer_append_idempotent_witness :
    bufAppend (bufAppend (bufAppend [] ⟨1, 7, 3, 4, 10, 100⟩) ⟨1, 7, 3, 4, 10, 100⟩)
        ⟨1, 7, 3, 4, 10, 100⟩ =
      bufAppend (bufAppend [] ⟨1, 7, 3, 4, 10, 100⟩) ⟨1, 7, 3, 4, 10, 100⟩ ∧
    (bufAppend (bufAppend (bufAppend [] ⟨1, 7, 3, 4, 10, 100⟩) ⟨1, 7, 3, 4, 10, 100⟩)
        ⟨1, 7, 3, 4, 10, 100⟩).countP (fun g => g.fixId == (7 : Nat)) = 1 := by
  have h := buffer_append_idempotent [] ⟨1, 7, 3, 4, 10, 100⟩ (by decide)
  obtain ⟨h1, _, h3⟩ := h
  refine ⟨?_, ?_⟩
  · simp only [h1]
  · rw [h1]
    exact h3

theorem acknowledge_eq_filter (b : List Fix) (bid : Nat) (ids : List Nat) :
    acknowledge b bid ids = b.filter (fun f => decide (f.fixId ∉ ids)) := by
  induction b with
  | nil => rfl
  | cons f rest ih =>
    unfold acknowledge
    by_cases h : f.fixId ∈ ids
    · simp [h, ih]
    · simp [h, ih]

theorem mem_acknowledge (b : List Fix) (bid : Nat) (ids : List Nat) (f : Fix) :
    f ∈ acknowledge b bid ids ↔ f ∈ b ∧ f.fixId ∉ ids := by
  rw [acknowledge_eq_filter]
  simp [List.mem_filter]

/-- C3: `acknowledge(batchId, fixIds)` removes exactly the entries whose
identifiers are in `fixIds`: the result is the buffer with precisely
those entries filtered out (all other entries kept, in order), an entry
survives exactly when its identifier is outside `fixIds`, and a fix
appended after the batch was formed (its identifier outside the batch)
is still present, at the tail, after acknowledgment. -/
theorem acknowledge_removes_exactly (b : List Fix) (bid : Nat) (ids : List Nat) :
    acknowledge b bid ids = b.filter (fun f => decide (f.fixId ∉ ids)) ∧
    (∀ f : Fix, f ∈ acknowledge b bid ids ↔ f ∈ b ∧ f.fixId ∉ ids) ∧
    (∀ f : Fix, hasId b f.fixId = false → f.fixId ∉ ids →
      acknowledge (bufAppend b f) bid ids = acknowledge b bid ids ++ [f]) := by
  refine ⟨acknowledge_eq_filter b bid ids, mem_acknowledge b bid ids, ?_⟩
  intro f hfresh hout
  have happ : bufAppend b f = b ++ [f] := by
    unfold bufAppend
    simp only [hasId] at hfresh
    simp [hfresh]
  rw [happ, acknowledge_eq_filter, acknowledge_eq_filter, List.filter_append]
  simp [hout]

/-- A concrete instantiation of C3's theorem: acknowledging fix ids 1
and 2 removes them, keeps fix 3, and keeps a fix 9 appended after the
batch was formed. -/
theorem acknowledge_removes_exactly_witness :
    (⟨1, 3, 0, 0, 5, 30⟩ : Fix) ∈
        acknowledge [⟨1, 1, 0, 0, 5, 10⟩, ⟨1, 2, 0, 0, 5, 20⟩, ⟨1, 3, 0, 0, 5, 30⟩] 77 [1, 2] ∧
    acknowledge
        (bufAppend [⟨1, 1, 0, 0, 5, 10⟩, ⟨1, 2, 0, 0, 5, 20⟩, ⟨1, 3, 0, 0, 5, 30⟩]
          ⟨1, 9, 0, 0, 5, 40⟩) 77 [1, 2] =
      acknowledge [⟨1, 1, 0, 0, 5, 10⟩, ⟨1, 2, 0, 0, 5, 20⟩, ⟨1, 3, 0, 0, 5, 30⟩] 77 [1, 2]
        ++ [⟨1, 9, 0, 0, 5, 40⟩] := by
  obtain ⟨-, hmem, happ⟩ :=
    acknowledge_removes_exactly
      [⟨1, 1, 0, 0, 5, 10⟩, ⟨1, 2, 0, 0, 5, 20⟩, ⟨1, 3, 0, 0, 5, 30⟩] 77 [1, 2]
  refine ⟨(hmem ⟨1, 3, 0, 0, 5, 30⟩).mpr ⟨by decide, by decide⟩, ?_⟩
  exact happ ⟨1, 9, 0, 0, 5, 40⟩ (by decide) (by decide)

/-! ## Server Ingest Endpoint and Position Store (spec sections 3, 4.6)

The server ingest implementation is not among the sampled sources; it is
modelled from the spec: a Position Record is "the durable, server-side
representation of a Fix, keyed by (rider identifier, fix identifier) for
deduplication", and ingest "deduplicates by (rider identifier, fix
identifier) — re-submission of an already-persisted fix is accepted
idempotently".  The server-received timestamp is display metadata and
plays no role in deduplication, so it is omitted from the record. -/

/-- Modelled from the spec: the durable server-side representation of a
Fix. -/
structure PosRecord where
  riderId : Nat
  fixId : Nat
  lat : Int
  lon : Int
  accuracy : Nat
  deviceTs : Nat
  deriving Repr, DecidableEq

/-- The Position Record persisted for a fix. -/
def mkRecord (f : Fix) : PosRecord :=
  ⟨f.riderId, f.fixId, f.lat, f.lon, f.accuracy, f.deviceTs⟩

/-- Deduplication key of a stored record. -/
def rkey (r : PosRecord) : Nat × Nat := (r.riderId, r.fixId)

/-- Deduplication key of an incoming fix. -/
def fkey (f : Fix) : Nat × Nat := (f.riderId, f.fixId)

/-- A key is present in the store. -/
def keyIn (s : List PosRecord) (k : Nat × Nat) : Prop := ∃ r ∈ s, rkey r = k

instance (s : List PosRecord) (k : Nat × Nat) : Decidable (keyIn s k) :=
  List.decidableBEx _ s

/-- Modelled from the spec: persisting one fix — skipped when its
(rider identifier, fix identifier) key is already stored, inserted
otherwise. -/
def insertFix (s : List PosRecord) (f : Fix) : List PosRecord :=
  if keyIn s (fkey f) then s else mkRecord f :: s

/-- Modelled from the spec: the Server Ingest Endpoint persists the
batch's fixes in order, deduplicating each against the store. -/
def ingest (s : List PosRecord) (b : List Fix) : List PosRecord :=
  b.foldl insertFix s

/-- First fix in a batch carrying a given key. -/
def findFix (b : List Fix) (k : Nat × Nat) : Option Fix :=
  b.find? (fun f => fkey f == k)

theorem rkey_mkRecord (f : Fix) : rkey (mkRecord f) = fkey f := rfl

theorem keyIn_insertFix (s : List PosRecord) (f : Fix) (k : Nat × Nat) :
    keyIn (insertFix s f) k ↔ keyIn s k ∨ k = fkey f := by
  unfold insertFix
  by_cases h : keyIn s (fkey f)
  · rw [if_pos h]
    constructor
    · exact Or.inl
    · rintro (hk | rfl)
      · exact hk
      · exact h
  · rw [if_neg h]
    constructor
    · rintro ⟨r, hr, hrk⟩
      rcases List.mem_cons.mp hr with rfl | hr2
      · exact Or.inr hrk.symm
      · exact Or.inl ⟨r, hr2, hrk⟩
    · rintro (⟨r, hr, hrk⟩ | rfl)
      · exact ⟨r, List.mem_cons_of_mem _ hr, hrk⟩
      · exact ⟨mkRecord f, List.mem_cons_self _ _, rfl⟩

theorem mem_insertFix (s : List PosRecord) (f : Fix) (r : PosRecord) :
    r ∈ insertFix s f ↔ r ∈ s ∨ (¬ keyIn s (fkey f) ∧ r = mkRecord f) := by
  unfold insertFix
  by_cases h : keyIn s (fkey f)
  · rw [if_pos h]
    simp [h]
  · rw [if_neg h]
    simp [h, List.mem_cons, or_comm]

theorem findFix_cons (f : Fix) (rest : List Fix) (k : Nat × Nat) :
    findFix (f :: rest) k = if fkey f = k then some f else findFix rest k := by
  unfold findFix
  by_cases h : fkey f = k
  · simp [List.find?_cons, h]
  · simp [List.find?_cons, h]

theorem mem_ingest (b : List Fix) (s : List PosRecord) (r : PosRecord) :
    r ∈ ingest s b ↔
      r ∈ s ∨ (¬ keyIn s (rkey r) ∧ (findFix b (rkey r)).map mkRecord = some r) := by
  induction b generalizing s with
  | nil => simp [ingest, findFix]
  | cons f rest ih =>
    have hstep : ingest s (f :: rest) = ingest (insertFix s f) rest := rfl
    rw [hstep, ih, mem_insertFix, keyIn_insertFix, findFix_cons]
    by_cases hrk : rkey r = fkey f
    · by_cases hkf : keyIn s (fkey f)
      · rw [hrk]
        simp [hkf]
      · rw [hrk]
        simp [hkf, eq_comm]
    · have hne : ¬ (r = mkRecord f) := by
        intro h
        exact hrk (h ▸ rkey_mkRecord f)
      have hif : (if fkey f = rkey r then some f else findFix rest (rkey r)) =
          findFix rest (rkey r) := by
        rw [if_neg (fun h => hrk h.symm)]
      rw [hif]
      simp only [hne, and_false, or_false, not_or, hrk, not_false_iff, and_true]

theorem keyIn_ingest (b : List Fix) (s : List PosRecord) (k : Nat × Nat) :
    keyIn (ingest s b) k ↔ keyIn s k ∨ ∃ f ∈ b, fkey f = k := by
  induction b generalizing s with
  | nil => simp [ingest]
  | cons f rest ih =>
    have hstep : ingest s (f :: rest) = ingest (insertFix s f) rest := rfl
    rw [hstep, ih, keyIn_insertFix]
    constructor
    · rintro ((h1 | rfl) | ⟨g, hg, hgk⟩)
      · exact Or.inl h1
      · exact Or.inr ⟨f, List.mem_cons_self _ _, rfl⟩
      · exact Or.inr ⟨g, List.mem_cons_of_mem _ hg, hgk⟩
    · rintro (h1 | ⟨g, hg, hgk⟩)
      · exact Or.inl (Or.inl h1)
      · rcases List.mem_cons.mp hg with rfl | hg2
        · exact Or.inl (Or.inr hgk.symm)
        · exact Or.inr ⟨g, hg2, hgk⟩

theorem ingest_of_keys (b : List Fix) (s : List PosRecord) :
    (∀ f ∈ b, keyIn s (fkey f)) → ingest s b = s := by
  induction b with
  | nil => intro _; rfl
  | cons f rest ih =>
    intro h
    have h1 : keyIn s (fkey f) := h f (List.mem_cons_self _ _)
    have hins : insertFix s f = s := by
      unfold insertFix
      rw [if_pos h1]
    show ingest (insertFix s f) rest = s
    rw [hins]
    exact ih (fun g hg => h g (List.mem_cons_of_mem _ hg))

theorem findFix_eq_some (b : List Fix) (k : Nat × Nat) (g : Fix)
    (h : findFix b k = some g) : g ∈ b ∧ fkey g = k := by
  unfold findFix at h
  refine ⟨List.mem_of_find?_eq_some h, ?_⟩
  have := List.find?_some h
  simpa using this

theorem findFix_eq_none (b : List Fix) (k : Nat × Nat)
    (h : findFix b k = none) : ∀ f ∈ b, fkey f ≠ k := by
  intro f hf
  unfold findFix at h
  have := List.find?_eq_none.mp h f hf
  simpa using this

theorem ingest_idem (s : List PosRecord) (b : List Fix) :
    ingest (ingest s b) b = ingest s b := by
  apply ingest_of_keys
  intro f hf
  rw [keyIn_ingest]
  exact Or.inr ⟨f, hf, rfl⟩

theorem mem_ingest_comm (s : List PosRecord) (b1 b2 : List Fix)
    (hcons : ∀ f1 ∈ b1, ∀ f2 ∈ b2, fkey f1 = fkey f2 → f1 = f2) (r : PosRecord) :
    r ∈ ingest (ingest s b1) b2 ↔ r ∈ ingest (ingest s b2) b1 := by
  rw [mem_ingest b2 (ingest s b1) r, mem_ingest b1 s r,
    mem_ingest b1 (ingest s b2) r, mem_ingest b2 s r, keyIn_ingest, keyIn_ingest]
  by_cases hk : keyIn s (rkey r)
  · simp [hk]
  · simp only [hk, not_false_iff, true_and, false_or, not_or]
    cases h1 : findFix b1 (rkey r) with
    | none =>
      have he1 : ¬ ∃ f ∈ b1, fkey f = rkey r := by
        rintro ⟨f, hf, hfk⟩
        exact findFix_eq_none b1 (rkey r) h1 f hf hfk
      cases h2 : findFix b2 (rkey r) with
      | none => simp [he1]
      | some g2 =>
        have hg2 := findFix_eq_some b2 (rkey r) g2 h2
        have he2 : ∃ f ∈ b2, fkey f = rkey r := ⟨g2, hg2.1, hg2.2⟩
        simp [he1, he2]
    | some g1 =>
      have hg1 := findFix_eq_some b1 (rkey r) g1 h1
      have he1 : ∃ f ∈ b1, fkey f = rkey r := ⟨g1, hg1.1, hg1.2⟩
      cases h2 : findFix b2 (rkey r) with
      | none =>
        have he2 : ¬ ∃ f ∈ b2, fkey f = rkey r := by
          rintro ⟨f, hf, hfk⟩
          exact findFix_eq_none b2 (rkey r) h2 f hf hfk
        simp [he1, he2]
      | some g2 =>
        have hg2 := findFix_eq_some b2 (rkey r) g2 h2
        have he2 : ∃ f ∈ b2, fkey f = rkey r := ⟨g2, hg2.1, hg2.2⟩
        have hgeq : g1 = g2 := hcons g1 hg1.1 g2 hg2.1 (hg1.2.trans hg2.2.symm)
        simp [he1, he2, hgeq]

/-- C1: Server ingest deduplication is idempotent and commutative:
submitting the same batch twice leaves the position store exactly as
after the first submission, and — provided overlapping (rider
identifier, fix identifier) keys identify the same immutable fix, as
the spec's data model guarantees — submitting two overlapping batches
in either order yields the same final set of stored Position Records. -/
theorem ingest_idempotent_commutative (s : List PosRecord) (b b1 b2 : List Fix)
    (hcons : ∀ f1 ∈ b1, ∀ f2 ∈ b2, fkey f1 = fkey f2 → f1 = f2) :
    ingest (ingest s b) b = ingest s b ∧
    ∀ r : PosRecord, r ∈ ingest (ingest s b1) b2 ↔ r ∈ ingest (ingest s b2) b1 :=
  ⟨ingest_idem s b, mem_ingest_comm s b1 b2 hcons⟩

/-- A concrete instantiation of C1's theorem: two batches for rider 1
overlapping on fix 2, ingested into an empty store in either order,
agree on the shared record, and re-ingesting a batch is a no-op. -/
theorem ingest_idempotent_commutative_witness :
    ingest (ingest [] [⟨1, 1, 10, 20, 5, 100⟩, ⟨1, 2, 11, 21, 5, 115⟩])
        [⟨1, 1, 10, 20, 5, 100⟩, ⟨1, 2, 11, 21, 5, 115⟩] =
      ingest [] [⟨1, 1, 10, 20, 5, 100⟩, ⟨1, 2, 11, 21, 5, 115⟩] ∧
    (mkRecord ⟨1, 2, 11, 21, 5, 115⟩ ∈
        ingest (ingest [] [⟨1, 1, 10, 20, 5, 100⟩, ⟨1, 2, 11, 21, 5, 115⟩])
          [⟨1, 2, 11, 21, 5, 115⟩, ⟨1, 3, 12, 22, 5, 130⟩] ↔
      mkRecord ⟨1, 2, 11, 21, 5, 115⟩ ∈
        ingest (ingest [] [⟨1, 2, 11, 21, 5, 115⟩, ⟨1, 3, 12, 22, 5, 130⟩])
          [⟨1, 1, 10, 20, 5, 100⟩, ⟨1, 2, 11, 21, 5, 115⟩]) := by
  have h := ingest_idempotent_commutative []
    [⟨1, 1, 10, 20, 5, 100⟩, ⟨1, 2, 11, 21, 5, 115⟩]
    [⟨1, 1, 10, 20, 5, 100⟩, ⟨1, 2, 11, 21, 5, 115⟩]
    [⟨1, 2, 11, 21, 5, 115⟩, ⟨1, 3, 12, 22, 5, 130⟩]
    (by decide)
  exact ⟨h.1, h.2 (mkRecord ⟨1, 2, 11, 21, 5, 115⟩)⟩

/-! ## Server Query Endpoint (spec section 4.7)

Not among the sampled sources; modelled from the spec: the "range" read
mode returns "all Position Records for a rider within a time window,
ordered by device timestamp ascending". -/

/-- Insertion into a list sorted by device timestamp. -/
def insertByTs (r : PosRecord) : List PosRecord → List PosRecord
  | [] => [r]
  | x :: xs => if r.deviceTs ≤ x.deviceTs then r :: x :: xs else x :: insertByTs r xs

/-- Insertion sort by device timestamp ascending. -/
def sortByTs : List PosRecord → List PosRecord
  | [] => []
  | x :: xs => insertByTs x (sortByTs xs)

/-- Modelled from the spec: the "range" query — all Position Records for
the rider whose device timestamp lies in the window, ordered by device
timestamp ascending. -/
def rangeQuery (s : List PosRecord) (rid t0 t1 : Nat) : List PosRecord :=
  sortByTs (s.filter (fun r =>
    (r.riderId == rid) && (decide (t0 ≤ r.deviceTs)) && (decide (r.deviceTs ≤ t1))))

theorem mem_insertByTs (r x : PosRecord) (l : List PosRecord) :
    x ∈ insertByTs r l ↔ x = r ∨ x ∈ l := by
  induction l with
  | nil => simp [insertByTs]
  | cons y ys ih =>
    unfold insertByTs
    by_cases h : r.deviceTs ≤ y.deviceTs
    · simp [h, List.mem_cons]
    · simp [h, List.mem_cons, ih]
      tauto

theorem mem_sortByTs (x : PosRecord) (l : List PosRecord) :
    x ∈ sortByTs l ↔ x ∈ l := by
  induction l with
  | nil => simp [sortByTs]
  | cons y ys ih =>
    unfold sortByTs
    rw [mem_insertByTs, ih, List.mem_cons]

/-- C5: round-trip — a fix appended to the Local Buffer, drained into a
batch via `peekBatch`, and ingested by the server is returned by any
range query whose window contains its device timestamp, with latitude,
longitude and device timestamp identical to the original fix.
(Acknowledging the batch afterwards only removes entries from the
client's buffer and does not touch the position store, so the queried
store is unaffected by the acknowledgment step.) -/
theorem round_trip (buf : List Fix) (s : List PosRecord) (f : Fix) (n t0 t1 : Nat)
    (hfresh : ¬ keyIn s (fkey f))
    (hbatch : ∀ g ∈ peekBatch (bufAppend buf f) n, fkey g = fkey f → g = f)
    (hmem : f ∈ peekBatch (bufAppend buf f) n)
    (ht0 : t0 ≤ f.deviceTs) (ht1 : f.deviceTs ≤ t1) :
    ∃ r ∈ rangeQuery (ingest s (peekBatch (bufAppend buf f) n)) f.riderId t0 t1,
      r.lat = f.lat ∧ r.lon = f.lon ∧ r.deviceTs = f.deviceTs := by
  refine ⟨mkRecord f, ?_, rfl, rfl, rfl⟩
  have hstore : mkRecord f ∈ ingest s (peekBatch (bufAppend buf f) n) := by
    rw [mem_ingest]
    refine Or.inr ⟨by rw [rkey_mkRecord]; exact hfresh, ?_⟩
    rw [rkey_mkRecord]
    cases hfind : findFix (peekBatch (bufAppend buf f) n) (fkey f) with
    | none => exact absurd rfl (findFix_eq_none _ (fkey f) hfind f hmem)
    | some g =>
      have hg := findFix_eq_some _ (fkey f) g hfind
      rw [hbatch g hg.1 hg.2]
      rfl
  unfold rangeQuery
  rw [mem_sortByTs, List.mem_filter]
  refine ⟨hstore, ?_⟩
  simp [mkRecord, ht0, ht1]

/-- A concrete instantiation of C5's theorem: a single fix round-trips
through buffer, batch, ingest and a range query over an empty store. -/
theorem round_trip_witness :
    ∃ r ∈ rangeQuery
        (ingest [] (peekBatch (bufAppend [] ⟨1, 5, 10, 20, 5, 50⟩) 200)) 1 0 100,
      r.lat = (10 : Int) ∧ r.lon = (20 : Int) ∧ r.deviceTs = 50 :=
  round_trip [] [] ⟨1, 5, 10, 20, 5, 50⟩ 200 0 100
    (by decide) (by decide) (by decide) (by decide) (by decide)

/-! ## Sampler/Throttle (spec section 4.2)

Not among the sampled sources; modelled from the spec: the Sampler is a
"pure decision function over (candidate fix, last-accepted fix or none)"
that "accepts a candidate when ANY holds: (a) elapsed time since last
accepted ≥ minimum interval (default 15s active), (b) great-circle
distance from last accepted ≥ minimum displacement (default 25 m),
(c) no fix has yet been accepted this session", and "rejects
low-confidence fixes unless no accepted fix exists for longer than a
staleness ceiling (default 5 minutes)".  The decision is modelled over
the measured quantities it consumes: whether a fix has been accepted
this session, the elapsed milliseconds since the last acceptance (since
session start when none), the great-circle distance in meters from the
last accepted fix (0 when none), and the candidate's accuracy radius. -/

/-- Modelled from the spec: sampler thresholds. -/
structure SamplerCfg where
  minIntervalMs : Nat
  minDispM : Nat
  accuracyCeilM : Nat
  stalenessMs : Nat
  deriving Repr, DecidableEq

/-- Spec defaults: 15 s minimum interval, 25 m minimum displacement,
100 m accuracy ceiling, 5 min staleness ceiling. -/
def defaultSamplerCfg : SamplerCfg := ⟨15000, 25, 100, 300000⟩

/-- Modelled from the spec: the Sampler's pure decision.  A
low-confidence candidate (accuracy above the ceiling) is rejected unless
no fix has been accepted for longer than the staleness ceiling; a
candidate within the ceiling is accepted when no fix has been accepted
yet, or enough time has elapsed, or it has moved far enough. -/
def shouldAccept (cfg : SamplerCfg) (hasLast : Bool)
    (elapsedMs distM accuracyM : Nat) : Bool :=
  if accuracyM > cfg.accuracyCeilM then
    decide (elapsedMs > cfg.stalenessMs)
  else
    (!hasLast) || decide (elapsedMs ≥ cfg.minIntervalMs) || decide (distM ≥ cfg.minDispM)

/-- The acceptance condition exactly as claim C4 words it: elapsed time
at least the minimum interval, or distance at least the minimum
displacement, or no fix accepted yet this session. -/
def claimedAccept (cfg : SamplerCfg) (hasLast : Bool) (elapsedMs distM : Nat) : Prop :=
  hasLast = false ∨ elapsedMs ≥ cfg.minIntervalMs ∨ distM ≥ cfg.minDispM

instance (cfg : SamplerCfg) (hasLast : Bool) (elapsedMs distM : Nat) :
    Decidable (claimedAccept cfg hasLast elapsedMs distM) := by
  unfold claimedAccept
  infer_instance

/-- C4 counterexample: a low-confidence candidate (accuracy 150 m,
above the 100 m ceiling) arriving 5 s after the last accepted fix and
30 m away satisfies the claim's condition (distance ≥ 25 m), yet the
spec's Sampler rejects it because low-confidence fixes are rejected
until the staleness ceiling (5 min) passes.  So acceptance is not
equivalent to the claimed three-way disjunction for every candidate. -/
theorem sampler_claim_counterexample :
    ¬ (shouldAccept defaultSamplerCfg true 5000 30 150 = true ↔
        claimedAccept defaultSamplerCfg true 5000 30) := by
  decide

/-- C4 (amended): for every candidate within the accuracy ceiling, the
Sampler accepts exactly when at least one of the claim's conditions
holds (elapsed ≥ minimum interval, distance ≥ minimum displacement, or
no fix accepted yet); with the 15 s / 25 m defaults, a first fix is
accepted, and a good-accuracy fix arriving 10 m away and 5 s later is
rejected — so two fixes 10 m apart and 5 s apart are not both
accepted. -/
theorem sampler_accept_characterization (cfg : SamplerCfg) (hasLast : Bool)
    (elapsedMs distM accuracyM : Nat) (hacc : accuracyM ≤ cfg.accuracyCeilM) :
    (shouldAccept cfg hasLast elapsedMs distM accuracyM = true ↔
      claimedAccept cfg hasLast elapsedMs distM) ∧
    shouldAccept defaultSamplerCfg false 0 0 5 = true ∧
    shouldAccept defaultSamplerCfg true 5000 10 5 = false := by
  refine ⟨?_, by decide, by decide⟩
  unfold shouldAccept claimedAccept
  rw [if_neg (by omega)]
  cases hasLast <;> simp

/-- A concrete instantiation of C4's amended theorem: with accuracy 5 m
(within the ceiling), a candidate 20 s after the last accepted fix is
accepted because the elapsed-time condition holds, and the 10 m / 5 s
candidate is rejected. -/
theorem sampler_accept_characterization_witness :
    (shouldAccept defaultSamplerCfg true 20000 0 5 = true ↔
      claimedAccept defaultSamplerCfg true 20000 0) ∧
    shouldAccept defaultSamplerCfg true 5000 10 5 = false := by
  have h := sampler_accept_characterization defaultSamplerCfg true 20000 0 5 (by decide)
  exact ⟨h.1, h.2.2⟩

/-! ## Tracking Session Controller (spec section 4.5)

Not among the sampled sources; modelled from the spec: sessions move
through `Stopped → Starting → Active → Stopping → Stopped` with
`Active → Paused → Active`; "Exactly one session is active per device at
any time; starting a new session while one is active is a no-op that
returns the existing session handle". -/

/-- Session lifecycle states (spec section 4.5). -/
inductive SessPhase
  | Starting
  | Active
  | Paused
  | Stopping
  | Stopped
  deriving Repr, DecidableEq

/-- A tracking session with its handle. -/
structure Session where
  sid : Nat
  phase : SessPhase
  deriving Repr, DecidableEq

/-- Per-device controller state: the device's sessions (newest first)
and the next fresh handle. -/
structure Controller where
  sessions : List Session
  nextSid : Nat
  deriving Repr, DecidableEq

/-- A session still holds the device (anything short of Stopped). -/
def Session.live (s : Session) : Bool := s.phase != SessPhase.Stopped

/-- The currently live session, if any. -/
def findLive (c : Controller) : Option Session := c.sessions.find? Session.live

/-- Modelled from the spec: `start` — "starting a new session while one
is active is a no-op that returns the existing session handle";
otherwise a fresh session enters Active and its handle is returned. -/
def startSession (c : Controller) : Nat × Controller :=
  match findLive c with
  | some s => (s.sid, c)
  | none => (c.nextSid, ⟨⟨c.nextSid, SessPhase.Active⟩ :: c.sessions, c.nextSid + 1⟩)

/-- Modelled from the spec: `stop` (logout, explicit stop, fatal
permission error) moves any live session to Stopped. -/
def stopSession (c : Controller) : Controller :=
  ⟨c.sessions.map (fun s => if s.live then ⟨s.sid, SessPhase.Stopped⟩ else s), c.nextSid⟩

/-- Modelled from the spec: background transition `Active → Paused`. -/
def pauseSession (c : Controller) : Controller :=
  ⟨c.sessions.map (fun s =>
    if s.phase = SessPhase.Active then ⟨s.sid, SessPhase.Paused⟩ else s), c.nextSid⟩

/-- Modelled from the spec: foreground transition `Paused → Active`. -/
def resumeSession (c : Controller) : Controller :=
  ⟨c.sessions.map (fun s =>
    if s.phase = SessPhase.Paused then ⟨s.sid, SessPhase.Active⟩ else s), c.nextSid⟩

/-- The spec's invariant: at most one Tracking Session per device is
active (not yet Stopped) at a time. -/
def atMostOneLive (c : Controller) : Prop :=
  c.sessions.countP Session.live ≤ 1

instance (c : Controller) : Decidable (atMostOneLive c) := by
  unfold atMostOneLive
  infer_instance

theorem countP_live_map_stop (l : List Session) :
    (l.map (fun s => if s.live then ⟨s.sid, SessPhase.Stopped⟩ else s)).countP
      Session.live = 0 := by
  rw [List.countP_eq_zero]
  intro x hx
  rcases List.mem_map.mp hx with ⟨s, _, rfl⟩
  by_cases h : s.live
  · rw [if_pos h]
    simp [Session.live]
  · rw [if_neg h]
    exact h

theorem countP_live_map_phase (l : List Session) (p q : SessPhase)
    (hp : p ≠ SessPhase.Stopped) (hq : q ≠ SessPhase.Stopped) :
    (l.map (fun s => if s.phase = p then ⟨s.sid, q⟩ else s)).countP Session.live =
      l.countP Session.live := by
  induction l with
  | nil => rfl
  | cons s rest ih =>
    simp only [List.map_cons, List.countP_cons, ih]
    by_cases h : s.phase = p
    · simp [h, Session.live, hp, hq]
    · simp [h]

/-- C6: at most one Tracking Session per device is live at a time, and
every controller operation preserves this; calling start while a
session is live is a no-op that returns the handle of the already-live
session rather than creating a second one. -/
theorem controller_single_session (c : Controller) (h : atMostOneLive c) :
    atMostOneLive (startSession c).2 ∧
    atMostOneLive (stopSession c) ∧
    atMostOneLive (pauseSession c) ∧
    atMostOneLive (resumeSession c) ∧
    (∀ s : Session, findLive c = some s → startSession c = (s.sid, c)) := by
  refine ⟨?_, ?_, ?_, ?_, ?_⟩
  · unfold startSession
    cases hf : findLive c with
    | some s => exact h
    | none =>
      unfold atMostOneLive at h ⊢
      simp only [List.countP_cons]
      have hz : c.sessions.countP Session.live = 0 := by
        rw [List.countP_eq_zero]
        intro x hx hlive
        unfold findLive at hf
        exact absurd hlive (by simpa using List.find?_eq_none.mp hf x hx)
      simp [hz, Session.live]
  · unfold atMostOneLive stopSession
    rw [countP_live_map_stop]
    exact Nat.zero_le 1
  · unfold atMostOneLive pauseSession
    rw [countP_live_map_phase c.sessions SessPhase.Active SessPhase.Paused
      (by decide) (by decide)]
    exact h
  · unfold atMostOneLive resumeSession
    rw [countP_live_map_phase c.sessions SessPhase.Paused SessPhase.Active
      (by decide) (by decide)]
    exact h
  · intro s hs
    unfold startSession
    rw [hs]

/-- A concrete instantiation of C6's theorem: with session 0 Active,
start is a no-op returning handle 0, and the invariant is preserved. -/
theorem controller_single_session_witness :
    atMostOneLive (startSession ⟨[⟨0, SessPhase.Active⟩], 1⟩).2 ∧
    startSession ⟨[⟨0, SessPhase.Active⟩], 1⟩ = (0, ⟨[⟨0, SessPhase.Active⟩], 1⟩) := by
  have h := controller_single_session ⟨[⟨0, SessPhase.Active⟩], 1⟩ (by decide)
  exact ⟨h.1, h.2.2.2.2 ⟨0, SessPhase.Active⟩ (by decide)⟩

/-! ## Sync Uploader (spec section 4.4)

Not among the sampled sources; modelled from the spec: state machine
`Idle → Uploading → (Acked | Failed) → Idle`; drains up to 200 fixes via
`peekBatch`; on transient failure the batch stays un-acknowledged and is
retried verbatim with exponential backoff (base 2 s, cap 5 min); "On
permanent rejection (4xx, malformed batch): log and drop the offending
batch to avoid a poison-pill stall, incrementing a data-loss counter; do
not crash the pipeline". -/

/-- Uploader phases. -/
inductive UpPhase
  | Idle
  | Uploading
  deriving Repr, DecidableEq

/-- Server response outcomes for an upload attempt. -/
inductive UploadResult
  | success
  | transientFailure
  | permanentRejection
  deriving Repr, DecidableEq

/-- Uploader state: phase, the session's buffer, the in-flight batch
(identifier and fixes) if any, the data-loss counter, and the current
retry delay. -/
structure Uploader where
  phase : UpPhase
  buffer : List Fix
  inflight : Option (Nat × List Fix)
  dataLoss : Nat
  retryDelayMs : Nat
  deriving Repr, DecidableEq

/-- Spec default batch size. -/
def batchSize : Nat := 200

/-- Spec backoff base (2 s). -/
def backoffBaseMs : Nat := 2000

/-- Spec backoff cap (5 min). -/
def backoffCapMs : Nat := 300000

/-- Modelled from the spec: a timer tick while Idle with a non-empty
buffer drains up to the batch size via `peekBatch` and enters Uploading
under a fresh client-generated batch identifier; a tick while Uploading
is skipped. -/
def beginUpload (u : Uploader) (batchId : Nat) : Uploader :=
  match u.phase with
  | UpPhase.Uploading => u
  | UpPhase.Idle =>
    if u.buffer.isEmpty then u
    else ⟨UpPhase.Uploading, u.buffer, some (batchId, peekBatch u.buffer batchSize),
      u.dataLoss, u.retryDelayMs⟩

/-- Modelled from the spec: handling the server's response to the
in-flight batch.  Success acknowledges the batch out of the buffer and
resets backoff; transient failure keeps the batch (identifier preserved)
for a verbatim retry with doubled, capped backoff; permanent rejection
drops the offending batch — its fixes are removed from the buffer so it
is never retried — increments the data-loss counter, and returns to
Idle. -/
def handleResult (u : Uploader) (res : UploadResult) : Uploader :=
  match u.inflight with
  | none => u
  | some (bid, fixes) =>
    match res with
    | UploadResult.success =>
      ⟨UpPhase.Idle, acknowledge u.buffer bid (fixes.map Fix.fixId), none,
        u.dataLoss, backoffBaseMs⟩
    | UploadResult.transientFailure =>
      ⟨UpPhase.Idle, u.buffer, some (bid, fixes), u.dataLoss,
        min (u.retryDelayMs * 2) backoffCapMs⟩
    | UploadResult.permanentRejection =>
      ⟨UpPhase.Idle, acknowledge u.buffer bid (fixes.map Fix.fixId), none,
        u.dataLoss + 1, backoffBaseMs⟩

/-- C7: on a permanent rejection the uploader drops the in-flight batch
without retrying it — the batch is no longer in flight and its fixes are
removed from the buffer, so they are never re-submitted — increments the
data-loss counter by one, and returns to Idle with the rest of the
pipeline intact: every buffered fix outside the dropped batch survives,
and a later timer tick uploads a batch containing none of the dropped
fix identifiers. -/
theorem permanent_rejection_drops_batch (u : Uploader) (bid : Nat) (fixes : List Fix)
    (hin : u.inflight = some (bid, fixes)) :
    (handleResult u UploadResult.permanentRejection).phase = UpPhase.Idle ∧
    (handleResult u UploadResult.permanentRejection).dataLoss = u.dataLoss + 1 ∧
    (handleResult u UploadResult.permanentRejection).inflight = none ∧
    (∀ f ∈ (handleResult u UploadResult.permanentRejection).buffer,
      f ∈ u.buffer ∧ f.fixId ∉ fixes.map Fix.fixId) ∧
    (∀ f ∈ u.buffer, f.fixId ∉ fixes.map Fix.fixId →
      f ∈ (handleResult u UploadResult.permanentRejection).buffer) ∧
    (∀ nextBid : Nat,
      (handleResult u UploadResult.permanentRejection).buffer ≠ [] →
      (beginUpload (handleResult u UploadResult.permanentRejection) nextBid).phase =
          UpPhase.Uploading ∧
      ∀ g ∈ (beginUpload (handleResult u UploadResult.permanentRejection) nextBid).inflight.elim
          [] Prod.snd, g.fixId ∉ fixes.map Fix.fixId) := by
  have hres : handleResult u UploadResult.permanentRejection =
      ⟨UpPhase.Idle, acknowledge u.buffer bid (fixes.map Fix.fixId), none,
        u.dataLoss + 1, backoffBaseMs⟩ := by
    unfold handleResult
    rw [hin]
  rw [hres]
  refine ⟨rfl, rfl, rfl, ?_, ?_, ?_⟩
  · intro f hf
    exact (mem_acknowledge u.buffer bid (fixes.map Fix.fixId) f).mp hf
  · intro f hf hout
    exact (mem_acknowledge u.buffer bid (fixes.map Fix.fixId) f).mpr ⟨hf, hout⟩
  · intro nextBid hne
    have hempty : (acknowledge u.buffer bid (fixes.map Fix.fixId)).isEmpty = false := by
      cases hc : acknowledge u.buffer bid (fixes.map Fix.fixId) with
      | nil => exact absurd hc hne
      | cons a l => rfl
    constructor
    · unfold beginUpload
      rw [hempty]
      rfl
    · unfold beginUpload
      rw [hempty]
      intro g hg
      have hsub : g ∈ acknowledge u.buffer bid (fixes.map Fix.fixId) := by
        simp only [Option.elim] at hg
        exact List.mem_of_mem_take hg
      exact ((mem_acknowledge u.buffer bid (fixes.map Fix.fixId) g).mp hsub).2

/-- A concrete instantiation of C7's theorem: an uploader with fix 1 in
flight and fixes 1 and 2 buffered drops fix 1, counts the loss, returns
to Idle, keeps fix 2, and the next tick uploads a batch without fix 1. -/
theorem permanent_rejection_drops_batch_witness :
    (handleResult
        ⟨UpPhase.Uploading, [⟨1, 1, 0, 0, 5, 10⟩, ⟨1, 2, 0, 0, 5, 20⟩],
          some (9, [⟨1, 1, 0, 0, 5, 10⟩]), 0, 2000⟩
        UploadResult.permanentRejection).dataLoss = 1 ∧
    (⟨1, 2, 0, 0, 5, 20⟩ : Fix) ∈
      (handleResult
        ⟨UpPhase.Uploading, [⟨1, 1, 0, 0, 5, 10⟩, ⟨1, 2, 0, 0, 5, 20⟩],
          some (9, [⟨1, 1, 0, 0, 5, 10⟩]), 0, 2000⟩
        UploadResult.permanentRejection).buffer := by
  have h := permanent_rejection_drops_batch
    ⟨UpPhase.Uploading, [⟨1, 1, 0, 0, 5, 10⟩, ⟨1, 2, 0, 0, 5, 20⟩],
      some (9, [⟨1, 1, 0, 0, 5, 10⟩]), 0, 2000⟩
    9 [⟨1, 1, 0, 0, 5, 10⟩] rfl
  exact ⟨h.2.1, h.2.2.2.2.1 ⟨1, 2, 0, 0, 5, 20⟩ (by decide) (by decide)⟩

end GPS

namespace Frontend

/-! ## Rider shell and authentication forms (embedded from the sampled
JavaScript sources) -/

/-- The authenticated user as the frontend components see it. -/
structure AppUser where
  full_name : String
  role : String
  deriving Repr, DecidableEq

/-- React hooks the rider shell can invoke. -/
inductive Hook
  | useAuth
  | useLocation
  | useGPS
  deriving Repr, DecidableEq

/-- Embedded from `src/frontend/src/components/RiderLayout.js` (lines
21–27): the hooks the component body runs on every render, in source
order — `useAuth()`, `useLocation()`, and `useGPS()` ("Initialize GPS
tracking", line 26).  All three calls sit at the top of the function
body, before the returned markup and before any branching, so the list
does not depend on the render inputs (authenticated user, current
pathname, children). -/
def riderLayoutHooks (_user : Option AppUser) (_pathname : String) : List Hook :=
  [Hook.useAuth, Hook.useLocation, Hook.useGPS]

/-- C8: rendering the rider shell invokes the GPS tracking hook for
every authenticated rider and every rider page: `useGPS` is among the
hooks `RiderLayout` runs for every render input, with no condition that
could skip it. -/
theorem riderLayout_always_invokes_useGPS (user : Option AppUser) (pathname : String) :
    Hook.useGPS ∈ riderLayoutHooks user pathname := by
  unfold riderLayoutHooks
  exact List.mem_cons_of_mem _ (List.mem_cons_of_mem _ (List.mem_cons_self _ _))

/-- The registration form's fields
(`src/unnamed/part_000`, `Register`, lines 10–17). -/
structure RegForm where
  full_name : String
  email : String
  phone : String
  password : String
  confirmPassword : String
  role : String
  deriving Repr, DecidableEq

/-- The payload `handleSubmit` sends to the register API
(`src/unnamed/part_000`, lines 44–50): every form field except the
confirmation. -/
structure RegPayload where
  full_name : String
  email : String
  phone : String
  password : String
  role : String
  deriving Repr, DecidableEq

/-- Outcome of a registration submit: a validation error shown locally
with no network call, or a call to the register API. -/
inductive RegOutcome
  | validationFailed (errorMsg : String)
  | submitted (payload : RegPayload)
  deriving Repr, DecidableEq

/-- Embedded from `src/unnamed/part_000` (`Register.handleSubmit`,
lines 27–62): the password-mismatch check runs first and returns before
any network call; then the minimum-length check; only past both is the
register API called with the form fields.  JavaScript `string.length`
counts UTF-16 code units while Lean's `String.length` counts
characters; the two agree on all passwords in the basic plane, which is
immaterial to the branch structure being verified. -/
def registerHandleSubmit (fd : RegForm) : RegOutcome :=
  if fd.password ≠ fd.confirmPassword then
    RegOutcome.validationFailed "Password tidak cocok"
  else if fd.password.length < 6 then
    RegOutcome.validationFailed "Password minimal 6 karakter"
  else
    RegOutcome.submitted ⟨fd.full_name, fd.email, fd.phone, fd.password, fd.role⟩

/-- C9: the registration form calls the register API exactly when the
password equals the confirmation and has length at least 6; a mismatch
yields the error message "Password tidak cocok" (this check runs first,
so it wins even when the password is also short), and a matching but
short password yields "Password minimal 6 karakter" — in both error
cases no network call is made. -/
theorem register_submit_validation (fd : RegForm) :
    ((∃ p : RegPayload, registerHandleSubmit fd = RegOutcome.submitted p) ↔
      fd.password = fd.confirmPassword ∧ 6 ≤ fd.password.length) ∧
    (fd.password ≠ fd.confirmPassword →
      registerHandleSubmit fd = RegOutcome.validationFailed "Password tidak cocok") ∧
    (fd.password = fd.confirmPassword → fd.password.length < 6 →
      registerHandleSubmit fd = RegOutcome.validationFailed "Password minimal 6 karakter") := by
  unfold registerHandleSubmit
  by_cases h1 : fd.password = fd.confirmPassword
  · rw [if_neg (by simp [h1])]
    by_cases h2 : fd.password.length < 6
    · rw [if_pos h2]
      refine ⟨?_, fun hc => absurd h1 hc, fun _ _ => rfl⟩
      constructor
      · rintro ⟨p, hp⟩
        cases hp
      · rintro ⟨-, hlen⟩
        omega
    · rw [if_neg h2]
      refine ⟨?_, fun hc => absurd h1 hc, fun _ hlt => absurd hlt h2⟩
      constructor
      · intro _
        exact ⟨h1, by omega⟩
      · intro _
        exact ⟨_, rfl⟩
  · rw [if_pos h1]
    refine ⟨?_, fun _ => rfl, fun hc => absurd hc h1⟩
    constructor
    · rintro ⟨p, hp⟩
      cases hp
    · rintro ⟨hc, -⟩
      exact absurd hc h1

/-- A concrete instantiation of C9's theorem: mismatched passwords get
"Password tidak cocok"; a matching 4-character password gets "Password
minimal 6 karakter"; a matching 8-character password submits. -/
theorem register_submit_validation_witness :
    registerHandleSubmit ⟨"Budi", "b@x.id", "08", "abcdef", "abcdeg", "rider"⟩ =
      RegOutcome.validationFailed "Password tidak cocok" ∧
    registerHandleSubmit ⟨"Budi", "b@x.id", "08", "abcd", "abcd", "rider"⟩ =
      RegOutcome.validationFailed "Password minimal 6 karakter" ∧
    (∃ p : RegPayload,
      registerHandleSubmit ⟨"Budi", "b@x.id", "08", "rahasia8", "rahasia8", "rider"⟩ =
        RegOutcome.submitted p) := by
  refine ⟨?_, ?_, ?_⟩
  · exact (register_submit_validation
      ⟨"Budi", "b@x.id", "08", "abcdef", "abcdeg", "rider"⟩).2.1 (by decide)
  · exact (register_submit_validation
      ⟨"Budi", "b@x.id", "08", "abcd", "abcd", "rider"⟩).2.2 rfl (by decide)
  · exact (register_submit_validation
      ⟨"Budi", "b@x.id", "08", "rahasia8", "rahasia8", "rider"⟩).1.mpr ⟨rfl, by decide⟩

/-- Embedded from `src/frontend/src/pages/Login.js` (lines 23–28): on a
successful login, `navigate('/rider')` when the returned user's role is
exactly the string `rider`, `navigate('/admin')` otherwise. -/
def loginNavigate (u : AppUser) : String :=
  if u.role = "rider" then "/rider" else "/admin"

/-- Embedded from `src/unnamed/part_000` (`Register.handleSubmit`,
lines 52–56): the identical role test picks the route after a
successful registration. -/
def registerNavigate (u : AppUser) : String :=
  if u.role = "rider" then "/rider" else "/admin"

/-- C10: after a successful login or registration the navigation target
is determined solely by the returned user's role: it is "/rider" exactly
when the role equals "rider" and "/admin" for every other role value,
and the login and registration paths compute the same target for the
same user. -/
theorem navigate_by_role (u : AppUser) :
    (loginNavigate u = "/rider" ↔ u.role = "rider") ∧
    (u.role ≠ "rider" → loginNavigate u = "/admin") ∧
    registerNavigate u = loginNavigate u := by
  by_cases h : u.role = "rider"
  · refine ⟨?_, fun hne => absurd h hne, rfl⟩
    unfold loginNavigate
    rw [if_pos h]
    exact ⟨fun _ => h, fun _ => rfl⟩
  · refine ⟨?_, ?_, rfl⟩
    · unfold loginNavigate
      rw [if_neg h]
      exact ⟨fun hc => absurd hc (by decide), fun hc => absurd hc h⟩
    · intro _
      unfold loginNavigate
      rw [if_neg h]

/-- A concrete instantiation of C10's theorem: a rider goes to
"/rider", an admin goes to "/admin", and registration navigates the
same way as login. -/
theorem navigate_by_role_witness :
    (loginNavigate ⟨"Budi", "rider"⟩ = "/rider" ↔ ("rider" : String) = "rider") ∧
    loginNavigate ⟨"Ana", "admin"⟩ = "/admin" ∧
    registerNavigate ⟨"Ana", "admin"⟩ = loginNavigate ⟨"Ana", "admin"⟩ := by
  refine ⟨(navigate_by_role ⟨"Budi", "rider"⟩).1, ?_, (navigate_by_role ⟨"Ana", "admin"⟩).2.2⟩
  exact (navigate_by_role ⟨"Ana", "admin"⟩).2.1 (by decide)

end Frontend
